import Mathlib

/-!
Verification of the rich-document conversion subsystem of `atlassian-cli`

Shallow embedding of the three conversion functions of the repository:

* `ADFToText` / `processNode` / `processListItem` (ADF → plain text), from
  the `internal/atlassian` ADF renderer,
* `HTMLToText` (Confluence storage HTML → plain text), from
  `internal/atlassian/html.go`,
* `MarkdownToADF` (Markdown → ADF JSON), from
  `internal/atlassian/markdown.go` (the actual markdown parser is the
  external library `github.com/summonio/markdown-to-adf`, which is not part
  of the repository; it is modelled from the spec, see `mdToADF`).

Modelling conventions:

* JSON values decoded by `encoding/json` into `interface` trees are modelled
  by the inductive `JValue` (with the child list and field list as the
  mutually defined `JList`/`JFields`, so that structural recursion over the
  tree stays kernel-reducible).  Go decodes every JSON number to `float64`;
  the only numeric attribute the renderer reads is `attrs.level`, converted
  with `int(level)`.  We model JSON numbers as `Int` (on integral values
  Go's `int(float64)` truncation is the identity); non-integral numbers play
  no role in any claim.
* Go run-time panics (the single-value type assertion in the heading case and
  `strings.Repeat` with a negative count) are modelled as `Except.error`.
* The Go renderer's recursion over the JSON tree is general recursion; it is
  embedded as the single interpreter `adfRun` over an explicit task type,
  structurally recursive on a `fuel : Nat` that decreases at every call.
  Each task constructor corresponds to one Go function or loop, and the
  Go-named wrappers `processNodeF`, `processListItemF`, … restore the
  original call structure.  Every call descends into the tree or advances in
  a child list, so the structural size `sizeJ` of the input (the fuel used
  by `ADFToText`) always suffices; running out of fuel is modelled by a
  distinguished error that no actual run reaches.
-/

instance {ε α : Type} [DecidableEq ε] [DecidableEq α] : DecidableEq (Except ε α) := fun a b =>
  match a, b with
  | .ok x, .ok y =>
    if h : x = y then .isTrue (by rw [h]) else .isFalse (by simp [h])
  | .error x, .error y =>
    if h : x = y then .isTrue (by rw [h]) else .isFalse (by simp [h])
  | .ok _, .error _ => .isFalse (by simp)
  | .error _, .ok _ => .isFalse (by simp)

mutual

/-- A decoded JSON value (`interface` tree produced by `encoding/json`). -/
inductive JValue where
  | null : JValue
  | bool : Bool → JValue
  | num : Int → JValue
  | str : String → JValue
  | arr : JList → JValue
  | obj : JFields → JValue

/-- A decoded JSON array (`[]interface`). -/
inductive JList where
  | nil : JList
  | cons : JValue → JList → JList

/-- A decoded JSON object (`map[string]interface`); JSON objects have unique
keys, so an association list with first-match lookup is faithful. -/
inductive JFields where
  | nil : JFields
  | cons : String → JValue → JFields → JFields

end

/-- Build a `JList` from a Lean list (notation helper for concrete trees). -/
def jlist : List JValue → JList
  | [] => .nil
  | v :: rest => .cons v (jlist rest)

/-- Build `JFields` from a Lean list (notation helper for concrete trees). -/
def jfields : List (String × JValue) → JFields
  | [] => .nil
  | (k, v) :: rest => .cons k v (jfields rest)

/-- A JSON array value from a Lean list. -/
def jarr (l : List JValue) : JValue := .arr (jlist l)

/-- A JSON object value from a Lean list of fields. -/
def jobj (l : List (String × JValue)) : JValue := .obj (jfields l)

mutual

/-- Structural size of a JSON value; used as the recursion fuel bound. -/
def sizeJ : JValue → Nat
  | .null => 1
  | .bool _ => 1
  | .num _ => 1
  | .str _ => 1
  | .arr l => 1 + sizeJL l
  | .obj f => 1 + sizeJF f

def sizeJL : JList → Nat
  | .nil => 1
  | .cons v rest => 1 + sizeJ v + sizeJL rest

def sizeJF : JFields → Nat
  | .nil => 1
  | .cons _ v rest => 1 + sizeJ v + sizeJF rest

end

/-- Go's map indexing `node[key]`: `nil` for a missing key. -/
def lookupField (k : String) : JFields → Option JValue
  | .nil => none
  | .cons k' v rest => if k' = k then some v else lookupField k rest

/-- Go's `v.(string)` with comma-ok defaulting: non-strings give `""`. -/
def asString : Option JValue → String
  | some (.str s) => s
  | _ => ""

/-- Go's `v.([]interface)` with comma-ok defaulting: non-arrays give `nil`. -/
def asArr : Option JValue → JList
  | some (.arr l) => l
  | _ => .nil

/-- Go's `v.(map[string]interface)` with comma-ok defaulting: non-objects
give the `nil` map, on which every lookup misses. -/
def asObjFields : Option JValue → JFields
  | some (.obj f) => f
  | _ => .nil

/-- Go's `v.(float64)` with comma-ok defaulting, composed with `int(_)`. -/
def asNum : Option JValue → Int
  | some (.num n) => n
  | _ => 0

/-- `strings.Repeat(" ", indent)` (`writeIndent`). -/
def indentStr (indent : Nat) : String :=
  String.mk (List.replicate indent ' ')

/-- `strings.Repeat("#", n)` for a non-negative count. -/
def hashMarks (n : Nat) : String :=
  String.mk (List.replicate n '#')

/-- ASCII upper-casing of `strings.ToUpper` (panel types are ASCII). -/
def toUpperStr (s : String) : String :=
  String.mk (s.data.map Char.toUpper)

/-- The mark-application loop of the `"text"` case of `processNode`:
`formatted := text`, then each mark in sequence wraps the current string;
non-object entries and unrecognized mark types leave it unchanged. -/
def applyMarks : JList → String → String
  | .nil, s => s
  | .cons m rest, s =>
    match m with
    | .obj mf =>
      let markType := asString (lookupField "type" mf)
      let s' :=
        if markType = "strong" then "**" ++ s ++ "**"
        else if markType = "em" then "*" ++ s ++ "*"
        else if markType = "code" then "`" ++ s ++ "`"
        else if markType = "strike" then "~~" ++ s ++ "~~"
        else s
      applyMarks rest s'
    | _ => applyMarks rest s

/-- One pending computation of the ADF renderer: `node` is a `processNode`
call, `item` a `processListItem` call, and the remaining constructors are
the per-case child loops of `processNode` and `processListItem`. -/
inductive ATask where
  | node : JFields → Nat → ATask
  | children : JList → Nat → ATask
  | bullets : JList → Nat → ATask
  | ordered : JList → Nat → Nat → ATask
  | item : JFields → Nat → String → ATask
  | itemChildren : JList → Nat → ATask
  | quoteChildren : JList → Nat → ATask
  | rowChildren : JList → Nat → ATask

/-- The ADF renderer's recursion (`processNode`/`processListItem` and their
child loops), as a fuel-indexed interpreter.  `Except.error` is a Go panic
(or fuel exhaustion, which no real run reaches). -/
def adfRun : Nat → ATask → Except String String
  | 0, _ => .error "model: out of fuel"
  | n + 1, t =>
    match t with
    | .node fields indent =>
      let nodeType := asString (lookupField "type" fields)
      let content := asArr (lookupField "content" fields)
      if nodeType = "doc" then
        adfRun n (.children content indent)
      else if nodeType = "paragraph" then
        (adfRun n (.children content indent)).map fun body =>
          indentStr indent ++ body ++ "\n"
      else if nodeType = "heading" then
        -- Go: level, _ := node["attrs"].(map[string]interface)["level"].(float64)
        -- The inner assertion is single-valued: it panics unless attrs is an object.
        match lookupField "attrs" fields with
        | some (.obj afields) =>
          let level := asNum (lookupField "level" afields)
          if level < 0 then
            -- strings.Repeat("#", int(level)) panics on a negative count
            .error "panic: strings.Repeat: negative Repeat count"
          else
            (adfRun n (.children content indent)).map fun body =>
              "\n" ++ indentStr indent ++ hashMarks level.toNat ++ " " ++ body ++ "\n"
        | _ => .error "panic: interface conversion: attrs is not a JSON object"
      else if nodeType = "text" then
        let text := asString (lookupField "text" fields)
        let marks := asArr (lookupField "marks" fields)
        .ok (applyMarks marks text)
      else if nodeType = "bulletList" then
        (adfRun n (.bullets content indent)).map fun body => body ++ "\n"
      else if nodeType = "orderedList" then
        (adfRun n (.ordered content indent 0)).map fun body => body ++ "\n"
      else if nodeType = "listItem" then
        adfRun n (.children content indent)
      else if nodeType = "codeBlock" then
        (adfRun n (.children content indent)).map fun body =>
          "\n" ++ indentStr indent ++ "```\n" ++ body ++ indentStr indent ++ "```\n"
      else if nodeType = "blockquote" then
        adfRun n (.quoteChildren content indent)
      else if nodeType = "hardBreak" then
        .ok "\n"
      else if nodeType = "rule" then
        .ok ("\n" ++ indentStr indent ++ "---\n")
      else if nodeType = "mention" then
        let attrs := asObjFields (lookupField "attrs" fields)
        .ok ("@" ++ asString (lookupField "text" attrs))
      else if nodeType = "emoji" then
        let attrs := asObjFields (lookupField "attrs" fields)
        .ok (asString (lookupField "shortName" attrs))
      else if nodeType = "inlineCard" ∨ nodeType = "blockCard" then
        let attrs := asObjFields (lookupField "attrs" fields)
        .ok (asString (lookupField "url" attrs))
      else if nodeType = "panel" then
        let attrs := asObjFields (lookupField "attrs" fields)
        let panelType := asString (lookupField "panelType" attrs)
        (adfRun n (.children content (indent + 2))).map fun body =>
          "\n" ++ indentStr indent ++ "[" ++ toUpperStr panelType ++ "]\n" ++ body ++ "\n"
      else if nodeType = "table" then
        adfRun n (.children content indent)
      else if nodeType = "tableRow" then
        (adfRun n (.rowChildren content indent)).map fun body =>
          indentStr indent ++ body ++ "\n"
      else if nodeType = "tableHeader" ∨ nodeType = "tableCell" then
        adfRun n (.children content indent)
      else
        adfRun n (.children content indent)
    | .children l indent =>
      -- the plain child loop: recurse into object children, skip the rest
      match l with
      | .nil => .ok ""
      | .cons (.obj cf) rest => do
        let a ← adfRun n (.node cf indent)
        let b ← adfRun n (.children rest indent)
        .ok (a ++ b)
      | .cons _ rest => adfRun n (.children rest indent)
    | .bullets l indent =>
      -- the bulletList loop: each object child is a list item with marker •
      match l with
      | .nil => .ok ""
      | .cons (.obj cf) rest => do
        let a ← adfRun n (.item cf indent "•")
        let b ← adfRun n (.bullets rest indent)
        .ok (a ++ b)
      | .cons _ rest => adfRun n (.bullets rest indent)
    | .ordered l indent i =>
      -- the orderedList loop: marker := fmt.Sprintf("%d.", i+1) with i the
      -- index in the full child list (non-object children advance it too)
      match l with
      | .nil => .ok ""
      | .cons (.obj cf) rest => do
        let a ← adfRun n (.item cf indent (toString (i + 1) ++ "."))
        let b ← adfRun n (.ordered rest indent (i + 1))
        .ok (a ++ b)
      | .cons _ rest => adfRun n (.ordered rest indent (i + 1))
    | .item fields indent marker =>
      -- processListItem: indent, marker, space, children, newline
      let content := asArr (lookupField "content" fields)
      (adfRun n (.itemChildren content indent)).map fun body =>
        indentStr indent ++ marker ++ " " ++ body ++ "\n"
    | .itemChildren l indent =>
      -- the child loop of processListItem: paragraph content is inlined
      -- (no per-paragraph newline), other blocks render indented by +2
      match l with
      | .nil => .ok ""
      | .cons (.obj cf) rest =>
        if asString (lookupField "type" cf) = "paragraph" then do
          let a ← adfRun n (.children (asArr (lookupField "content" cf)) indent)
          let b ← adfRun n (.itemChildren rest indent)
          .ok (a ++ b)
        else do
          let a ← adfRun n (.node cf (indent + 2))
          let b ← adfRun n (.itemChildren rest indent)
          .ok (a ++ b)
      | .cons _ rest => adfRun n (.itemChildren rest indent)
    | .quoteChildren l indent =>
      -- the blockquote loop: indent and "> " before every object child
      match l with
      | .nil => .ok ""
      | .cons (.obj cf) rest => do
        let a ← adfRun n (.node cf indent)
        let b ← adfRun n (.quoteChildren rest indent)
        .ok (indentStr indent ++ "> " ++ a ++ b)
      | .cons _ rest => adfRun n (.quoteChildren rest indent)
    | .rowChildren l indent =>
      -- the tableRow loop: every object child's rendering followed by " | "
      match l with
      | .nil => .ok ""
      | .cons (.obj cf) rest => do
        let a ← adfRun n (.node cf indent)
        let b ← adfRun n (.rowChildren rest indent)
        .ok (a ++ " | " ++ b)
      | .cons _ rest => adfRun n (.rowChildren rest indent)

/-- `processNode` (fuel-indexed). -/
def processNodeF (fuel : Nat) (fields : JFields) (indent : Nat) :
    Except String String :=
  adfRun fuel (.node fields indent)

/-- `processListItem` (fuel-indexed). -/
def processListItemF (fuel : Nat) (fields : JFields) (indent : Nat)
    (marker : String) : Except String String :=
  adfRun fuel (.item fields indent marker)

/-- The plain child loop of `processNode` (fuel-indexed). -/
def renderChildrenF (fuel : Nat) (children : JList) (indent : Nat) :
    Except String String :=
  adfRun fuel (.children children indent)

/-- The `orderedList` child loop (fuel-indexed), with 0-based index `i`. -/
def processOrderedItemsF (fuel : Nat) (children : JList) (indent : Nat)
    (i : Nat) : Except String String :=
  adfRun fuel (.ordered children indent i)

/-- The character set of Go's `unicode.IsSpace` restricted to the code points
the converters can produce (the full set adds only further Unicode
space separators, which none of the claims involve). -/
def isGoSpace (c : Char) : Bool :=
  c = ' ' || c = '\t' || c = '\n' || c = '\x0b' || c = '\x0c' || c = '\r' ||
  c = '\x85' || c = '\xA0'

/-- `strings.TrimSpace` on a character list. -/
def trimL (l : List Char) : List Char :=
  ((l.dropWhile isGoSpace).reverse.dropWhile isGoSpace).reverse

/-- `strings.TrimSpace`. -/
def trimSpace (s : String) : String :=
  String.mk (trimL s.data)

/-- `ADFToText`: `nil` and non-object inputs yield `""`; otherwise the tree
is walked by `processNode` and the result trimmed.  The fuel `sizeJ adf`
strictly bounds the recursion (every call descends into the tree or
advances in a child list, and `sizeJ` counts every node and list link). -/
def ADFToText (adf : JValue) : Except String String :=
  match adf with
  | .null => .ok ""
  | .obj fields => (processNodeF (sizeJ adf) fields 0).map trimSpace
  | _ => .ok ""

/-! ## Storage-HTML renderer (`HTMLToText`)

`HTMLToText` is an ordered sequence of `regexp.ReplaceAllString` /
`strings.ReplaceAll` passes.  Each pass is embedded as a scan over the
character list: at every position the pass's pattern is tried
(`step` functions below); on a match the replacement is emitted and
scanning resumes after the consumed text, mirroring Go's leftmost
semantics.  Every pattern consumes at least one character when it
matches, so the scan driver's fuel (the input length) never runs out.

Pattern notes (Go `regexp` is leftmost-first with greedy backtracking,
`.` does not match a newline, `\s` is the ASCII class):

* `<tag[^>]*>` matches `"<tag"`, then everything up to and including the
  first `'>'` (`[^>]*` cannot contain `'>'`, so its extent is forced).
* `(.*?)` before a closing literal is the shortest newline-free stretch
  up to the first occurrence of that literal (`findClose`).
* `attr="([^"]*)"` after `<a[^>]*`/`<img[^>]*`: the greedy `[^>]*` prefers
  the latest occurrence of `attr="` that starts before the first `'>'` and
  is followed by a closing quote and a later `'>'` (`lastAttrOcc`); the
  quoted value may itself contain `'>'`.
-/

/-- Go regexp's `\s` class: `[\t\n\f\r ]`. -/
def isWS (c : Char) : Bool :=
  c = '\t' || c = '\n' || c = '\x0c' || c = '\r' || c = ' '

/-- Horizontal whitespace, the `[ \t]` class. -/
def isHoriz (c : Char) : Bool :=
  c = ' ' || c = '\t'

/-- Scan driver for one replacement pass: at each position try `step`; on
`some (rep, rest)` emit `rep` and continue after the match, otherwise keep
the character.  `fuel` is the remaining input length (every match consumes
at least one character, so fuel suffices and the `0` case with a non-empty
list is never reached by `runPass`). -/
def rewriteAux (step : List Char → Option (List Char × List Char)) :
    Nat → List Char → List Char
  | _, [] => []
  | 0, l => l
  | n + 1, c :: cs =>
    match step (c :: cs) with
    | some (rep, rest) => rep ++ rewriteAux step n rest
    | none => c :: rewriteAux step n cs

/-- One whole `ReplaceAllString`-style pass over the string. -/
def runPass (step : List Char → Option (List Char × List Char))
    (l : List Char) : List Char :=
  rewriteAux step l.length l

/-- Literal-pattern replacement (`strings.ReplaceAll`, and regexes that are
plain literals such as `</p>`). -/
def stepLit (pat rep : List Char) (l : List Char) :
    Option (List Char × List Char) :=
  if pat.isPrefixOf l then some (rep, l.drop pat.length) else none

/-- Match `<tag[^>]*>` at the head; returns the rest after the `'>'`. -/
def matchOpenTag (tag : List Char) (l : List Char) : Option (List Char) :=
  if ('<' :: tag).isPrefixOf l then
    match (l.drop (tag.length + 1)).dropWhile (fun c => c ≠ '>') with
    | '>' :: r => some r
    | _ => none
  else none

/-- An open-tag-only pass: `<tag[^>]*>` → `rep`. -/
def stepOpen (tag rep : List Char) (l : List Char) :
    Option (List Char × List Char) :=
  (matchOpenTag tag l).map fun r => (rep, r)

/-- The non-greedy `(.*?)` up to the literal `closing`: the shortest
newline-free capture, `none` when a newline or the end intervenes. -/
def findClose (closing : List Char) : List Char → Option (List Char × List Char)
  | [] => none
  | c :: cs =>
    if closing.isPrefixOf (c :: cs) then
      some ([], (c :: cs).drop closing.length)
    else if c = '\n' then none
    else
      match findClose closing cs with
      | some (cap, rest) => some (c :: cap, rest)
      | none => none

/-- A paired pass `<tag[^>]*>(.*?)</tag>` → `pre ++ capture ++ post`. -/
def stepPair (tag pre post : List Char) (l : List Char) :
    Option (List Char × List Char) :=
  match matchOpenTag tag l with
  | some r =>
    match findClose ('<' :: '/' :: (tag ++ ['>'])) r with
    | some (cap, rest) => some (pre ++ cap ++ post, rest)
    | none => none
  | none => none

/-- The `<br\s*/?>` pass. -/
def stepBr (l : List Char) : Option (List Char × List Char) :=
  if "<br".data.isPrefixOf l then
    match (l.drop 3).dropWhile isWS with
    | '/' :: '>' :: rest => some (['\n'], rest)
    | '>' :: rest => some (['\n'], rest)
    | _ => none
  else none

/-- The `<pre[^>]*><code[^>]*>(.*?)</code></pre>` pass. -/
def stepPreCode (l : List Char) : Option (List Char × List Char) :=
  match matchOpenTag "pre".data l with
  | some r =>
    match matchOpenTag "code".data r with
    | some r2 =>
      match findClose "</code></pre>".data r2 with
      | some (cap, rest) => some ("\n```\n".data ++ cap ++ "\n```\n".data, rest)
      | none => none
    | none => none
  | none => none

/-- Try, at the head, `attr="VALUE"` followed by `[^>]*` and `'>'`; returns
the quoted value (which may contain `'>'` but no quote) and the rest after
the final `'>'`. -/
def attrTail (attr : List Char) (l : List Char) :
    Option (List Char × List Char) :=
  if (attr ++ ['=', '"']).isPrefixOf l then
    let r := l.drop (attr.length + 2)
    match r.dropWhile (fun c => c ≠ '"') with
    | '"' :: r2 =>
      match r2.dropWhile (fun c => c ≠ '>') with
      | '>' :: r3 => some (r.takeWhile (fun c => c ≠ '"'), r3)
      | _ => none
    | _ => none
  else none

/-- The latest viable `attr="…"` occurrence starting before the first `'>'`
(the backtracking of the greedy `[^>]*` before the attribute). -/
def lastAttrOcc (attr : List Char) : List Char → Option (List Char × List Char)
  | [] => none
  | c :: cs =>
    if c = '>' then none
    else
      match lastAttrOcc attr cs with
      | some res => some res
      | none => attrTail attr (c :: cs)

/-- The link pass `<a[^>]*href="([^"]*)"[^>]*>(.*?)</a>` → `"$2 ($1)"`. -/
def stepLink (l : List Char) : Option (List Char × List Char) :=
  if "<a".data.isPrefixOf l then
    match lastAttrOcc "href".data (l.drop 2) with
    | some (url, r) =>
      match findClose "</a>".data r with
      | some (txt, rest) => some (txt ++ " (".data ++ url ++ [')'], rest)
      | none => none
    | none => none
  else none

/-- The image passes `<img[^>]*alt="([^"]*)"[^>]*>` → `"[Image: $1]"` (and
the `src` fallback of the same shape). -/
def stepImg (attr : List Char) (l : List Char) :
    Option (List Char × List Char) :=
  if "<img".data.isPrefixOf l then
    match lastAttrOcc attr (l.drop 4) with
    | some (v, rest) => some ("[Image: ".data ++ v ++ [']'], rest)
    | none => none
  else none

/-- The final tag-removal pass `<[^>]+>` → `""`. -/
def stepTag (l : List Char) : Option (List Char × List Char) :=
  match l with
  | '<' :: c :: cs =>
    if c = '>' then none
    else
      match (c :: cs).dropWhile (fun x => x ≠ '>') with
      | '>' :: rest => some ([], rest)
      | _ => none
  | _ => none

/-- The blank-line collapse `\n\s*\n\s*\n+` → `"\n\n"`.  The pattern matches
exactly at a newline whose maximal whitespace run contains at least three
newlines; greedy backtracking makes the match extend through the last
newline of that run. -/
def stepBlank (l : List Char) : Option (List Char × List Char) :=
  match l with
  | [] => none
  | c :: _ =>
    if c = '\n' then
      if 3 ≤ (l.takeWhile isWS).count '\n' then
        some (['\n', '\n'],
          ((l.takeWhile isWS).reverse.takeWhile (fun x => x ≠ '\n')).reverse ++
            l.dropWhile isWS)
      else none
    else none

/-- The horizontal-whitespace collapse `[ \t]+` → `" "`. -/
def stepHoriz (l : List Char) : Option (List Char × List Char) :=
  match l with
  | c :: cs => if isHoriz c then some ([' '], cs.dropWhile isHoriz) else none
  | [] => none

/-- The tag-rewriting and entity-decoding passes of `HTMLToText` (each pass
sees the output of the previous one, in the exact source order). -/
def htmlTagEntityPasses (l : List Char) : List Char :=
  -- Replace headings with markdown-style headers
  let t := runPass (stepPair "h1".data "\n# ".data "\n".data) l
  let t := runPass (stepPair "h2".data "\n## ".data "\n".data) t
  let t := runPass (stepPair "h3".data "\n### ".data "\n".data) t
  let t := runPass (stepPair "h4".data "\n#### ".data "\n".data) t
  let t := runPass (stepPair "h5".data "\n##### ".data "\n".data) t
  let t := runPass (stepPair "h6".data "\n###### ".data "\n".data) t
  -- Replace paragraphs with newlines
  let t := runPass (stepOpen "p".data "\n".data) t
  let t := runPass (stepLit "</p>".data "\n".data) t
  -- Replace breaks
  let t := runPass stepBr t
  -- Replace list items
  let t := runPass (stepOpen "li".data "\n• ".data) t
  let t := runPass (stepLit "</li>".data []) t
  -- Replace unordered lists
  let t := runPass (stepOpen "ul".data "\n".data) t
  let t := runPass (stepLit "</ul>".data "\n".data) t
  -- Replace ordered lists
  let t := runPass (stepOpen "ol".data "\n".data) t
  let t := runPass (stepLit "</ol>".data "\n".data) t
  -- Replace code blocks
  let t := runPass stepPreCode t
  let t := runPass (stepPair "pre".data "\n```\n".data "\n```\n".data) t
  -- Replace inline code
  let t := runPass (stepPair "code".data "`".data "`".data) t
  -- Replace strong/bold
  let t := runPass (stepPair "strong".data "**".data "**".data) t
  let t := runPass (stepPair "b".data "**".data "**".data) t
  -- Replace emphasis/italic
  let t := runPass (stepPair "em".data "*".data "*".data) t
  let t := runPass (stepPair "i".data "*".data "*".data) t
  -- Replace links - show URL
  let t := runPass stepLink t
  -- Replace images - just show alt text or URL
  let t := runPass (stepImg "alt".data) t
  let t := runPass (stepImg "src".data) t
  -- Handle table elements - basic rendering
  let t := runPass (stepOpen "table".data "\n".data) t
  let t := runPass (stepLit "</table>".data "\n".data) t
  let t := runPass (stepOpen "tr".data []) t
  let t := runPass (stepLit "</tr>".data "\n".data) t
  let t := runPass (stepOpen "th".data "| ".data) t
  let t := runPass (stepLit "</th>".data " ".data) t
  let t := runPass (stepOpen "td".data "| ".data) t
  let t := runPass (stepLit "</td>".data " ".data) t
  -- Handle divs and spans - just remove tags
  let t := runPass (stepOpen "div".data "\n".data) t
  let t := runPass (stepLit "</div>".data "\n".data) t
  let t := runPass (stepOpen "span".data []) t
  let t := runPass (stepLit "</span>".data []) t
  -- Handle blockquotes
  let t := runPass (stepOpen "blockquote".data "\n> ".data) t
  let t := runPass (stepLit "</blockquote>".data "\n".data) t
  -- Remove remaining HTML tags
  let t := runPass stepTag t
  -- Decode common HTML entities
  let t := runPass (stepLit "&amp;".data "&".data) t
  let t := runPass (stepLit "&lt;".data "<".data) t
  let t := runPass (stepLit "&gt;".data ">".data) t
  let t := runPass (stepLit "&quot;".data ['"']) t
  let t := runPass (stepLit "&#39;".data ['\x27']) t
  let t := runPass (stepLit "&nbsp;".data " ".data) t
  t

/-- The whole ordered pass pipeline of `HTMLToText`: the tag and entity
passes, then the whitespace clean-up (blank-line collapse, then
horizontal-whitespace collapse). -/
def htmlPasses (l : List Char) : List Char :=
  runPass stepHoriz (runPass stepBlank (htmlTagEntityPasses l))

/-- `HTMLToText`: empty input short-circuits; otherwise the pass pipeline is
run and the result trimmed. -/
def HTMLToText (s : String) : String :=
  if s = "" then "" else String.mk (trimL (htmlPasses s.data))

/-! ## Markdown → ADF compiler (`MarkdownToADF`) -/

/-- Split on `'\n'` (line structure of the markdown input). -/
def splitLines : List Char → List (List Char)
  | [] => [[]]
  | c :: cs =>
    let r := splitLines cs
    if c = '\n' then [] :: r
    else
      match r with
      | [] => [[c]]
      | line :: ls => (c :: line) :: ls

/-- Join lines with a separator. -/
def joinWith (sep : List Char) : List (List Char) → List Char
  | [] => []
  | [l] => l
  | l :: rest => l ++ sep ++ joinWith sep rest

/-- A line of only whitespace (block separator). -/
def allWS (l : List Char) : Bool := l.all isWS

/-- Number of leading `'#'` characters. -/
def leadingHashes (l : List Char) : Nat := (l.takeWhile (fun c => c = '#')).length

/-- An ATX heading line: 1–6 `'#'` followed by a space. -/
def isHeadingLine (l : List Char) : Bool :=
  decide (1 ≤ leadingHashes l) && decide (leadingHashes l ≤ 6) &&
    " ".data.isPrefixOf (l.drop (leadingHashes l))

/-- A bullet-list line (`- ` or `* ` prefix). -/
def isBulletLine (l : List Char) : Bool :=
  "- ".data.isPrefixOf l || "* ".data.isPrefixOf l

/-- An ordered-list line (digits then `. `). -/
def isOrderedLine (l : List Char) : Bool :=
  decide (1 ≤ (l.takeWhile Char.isDigit).length) &&
    ". ".data.isPrefixOf (l.drop (l.takeWhile Char.isDigit).length)

/-- A blockquote line (`> ` prefix). -/
def isQuoteLine (l : List Char) : Bool := "> ".data.isPrefixOf l

/-- A code-fence line (3 backquotes, optional language tag). -/
def isFenceLine (l : List Char) : Bool := "```".data.isPrefixOf l

/-- A plain paragraph line: non-blank and not any block construct. -/
def isPlainLine (l : List Char) : Bool :=
  !allWS l && !isHeadingLine l && !isBulletLine l && !isOrderedLine l &&
    !isQuoteLine l && !isFenceLine l

/-- An ADF `text` node. -/
def mdText (t : List Char) : JValue :=
  jobj [("type", .str "text"), ("text", .str (String.mk t))]

/-- An ADF `paragraph` of one text node. -/
def mdParagraph (t : List Char) : JValue :=
  jobj [("type", .str "paragraph"), ("content", jarr [mdText t])]

/-- An ADF `listItem` of one paragraph. -/
def mdListItem (t : List Char) : JValue :=
  jobj [("type", .str "listItem"), ("content", jarr [mdParagraph t])]

/-- Modelled from the spec: the block grammar of the Markdown-to-ADF
compiler (§4.3), the part of the conversion performed by the external
library `github.com/summonio/markdown-to-adf`, which is not in the
repository.  Line-based, per the spec's required coverage: ATX headings
`#`..`######` with numeric `level`, paragraphs separated by blank lines,
bullet lists (`- `/`* `), ordered lists (`1. ` style), fenced code blocks
(language tag informational only), and blockquotes (`> `).  Inline mark
and link parsing inside a line is not modelled (no claim depends on it);
a line's text is carried verbatim in a `text` node.  `fuel` is the number
of remaining lines (each step consumes at least one line). -/
def mdBlocks : Nat → List (List Char) → List JValue
  | 0, _ => []
  | _ + 1, [] => []
  | n + 1, line :: rest =>
    if allWS line then mdBlocks n rest
    else if isHeadingLine line then
      jobj [("type", .str "heading"),
            ("attrs", jobj [("level", .num (leadingHashes line : Int))]),
            ("content", jarr [mdText (line.drop (leadingHashes line + 1))])] ::
        mdBlocks n rest
    else if isBulletLine line then
      let group := line :: rest.takeWhile isBulletLine
      jobj [("type", .str "bulletList"),
            ("content", jarr (group.map fun l2 => mdListItem (l2.drop 2)))] ::
        mdBlocks n (rest.dropWhile isBulletLine)
    else if isOrderedLine line then
      let group := line :: rest.takeWhile isOrderedLine
      jobj [("type", .str "orderedList"),
            ("content", jarr (group.map fun l2 =>
              mdListItem (l2.drop ((l2.takeWhile Char.isDigit).length + 2))))] ::
        mdBlocks n (rest.dropWhile isOrderedLine)
    else if isQuoteLine line then
      jobj [("type", .str "blockquote"),
            ("content", jarr [mdParagraph (line.drop 2)])] ::
        mdBlocks n rest
    else if isFenceLine line then
      let body := rest.takeWhile (fun l2 => !isFenceLine l2)
      let rest2 :=
        match rest.dropWhile (fun l2 => !isFenceLine l2) with
        | [] => []
        | _ :: r => r
      jobj [("type", .str "codeBlock"),
            ("content", jarr [mdText (joinWith ['\n'] body)])] ::
        mdBlocks n rest2
    else
      let para := line :: rest.takeWhile isPlainLine
      mdParagraph (joinWith [' '] para) :: mdBlocks n (rest.dropWhile isPlainLine)

/-- Modelled from the spec: the whole Markdown-to-ADF conversion.  The root
is always the object `type "doc", version 1, content [...]` (§4.3 output
contract). -/
def mdToADF (markdown : String) : JValue :=
  let lines := splitLines markdown.data
  jobj [("type", .str "doc"), ("version", .num 1),
        ("content", jarr (mdBlocks lines.length lines))]

/-- `MarkdownToADF` from `markdown.go`: renders via the external library and
decodes the produced JSON.  The library is modelled by `mdToADF`, which by
the spec never fails, so the wrapper's error channel is never used. -/
def MarkdownToADF (markdown : String) : Except String JValue :=
  .ok (mdToADF markdown)

/-- Field lookup on a JSON value (misses on non-objects). -/
def jlookup (k : String) : JValue → Option JValue
  | .obj f => lookupField k f
  | _ => none

example : ADFToText .null = .ok "" := rfl

example : jlookup "type" (mdToADF "") = some (.str "doc") := rfl

example : ADFToText (mdToADF "# Title") = .ok "# Title" := by decide

example : HTMLToText "" = "" := rfl

example : HTMLToText "Plain text" = "Plain text" := by decide

example : HTMLToText "<strong>x</strong>" = "**x**" := by decide

example : HTMLToText "<h2>Sub</h2>" = "## Sub" := by decide

example :
    ADFToText (jobj [("type", .str "doc"), ("content", jarr
      [jobj [("type", .str "paragraph"), ("content", jarr
        [jobj [("type", .str "text"), ("text", .str "Hello world")]])]])]) =
    .ok "Hello world" := by decide

/-! ## Whitespace-collapse invariant (claim C6)

The final three stages of `HTMLToText` are the blank-line collapse
(`stepBlank`), the horizontal-whitespace collapse (`stepHoriz`) and the
trim.  We show that after the blank-line collapse no three consecutive
newlines remain, and that the two later stages cannot create any.
-/

def nlTriple : List Char := ['\n', '\n', '\n']

lemma no_triple_of_count_le {l : List Char} (h : l.count '\n' ≤ 2) :
    ¬ nlTriple <:+: l := by
  intro hinf
  have hc : nlTriple.count '\n' ≤ l.count '\n' := hinf.sublist.count_le '\n'
  have h3 : nlTriple.count '\n' = 3 := by decide
  omega

lemma head?_dropWhile_not (p : Char → Bool) :
    ∀ (l : List Char) (c : Char), (l.dropWhile p).head? = some c → p c = false := by
  intro l
  induction l with
  | nil => intro c h; simp at h
  | cons a t ih =>
    intro c h
    by_cases hp : p a
    · rw [List.dropWhile_cons_of_pos hp] at h
      exact ih c h
    · rw [List.dropWhile_cons_of_neg hp] at h
      simp only [List.head?_cons, Option.some.injEq] at h
      subst h
      simpa using hp

lemma stepBlank_none_of_ne {c : Char} (hc : ¬ c = '\n') (cs : List Char) :
    stepBlank (c :: cs) = none := by
  simp [stepBlank, hc]

lemma rewriteAux_blank_head :
    ∀ (n : Nat) (l : List Char), l.head? ≠ some '\n' →
      (rewriteAux stepBlank n l).head? ≠ some '\n' := by
  intro n l h
  match n, l with
  | n, [] => simp [rewriteAux]
  | 0, c :: cs => simpa [rewriteAux] using h
  | n + 1, c :: cs =>
    have hc : ¬ c = '\n' := by simpa using h
    rw [rewriteAux, stepBlank_none_of_ne hc]
    simpa using hc

lemma cons_prefix_head {c : Char} {r X : List Char} (h : (c :: r) <+: X) :
    X.head? = some c := by
  obtain ⟨t, ht⟩ := h
  rw [← ht]
  rfl

lemma rewriteAux_blank_no_nl2 :
    ∀ (n : Nat) (cs : List Char),
      (cs.takeWhile isWS).count '\n' ≤ 1 →
      ¬ ('\n' :: '\n' :: []) <+: rewriteAux stepBlank n cs := by
  intro n cs hcnt hpre
  match n, cs with
  | n, [] =>
    rw [show rewriteAux stepBlank n [] = [] from by cases n <;> rfl] at hpre
    simp at hpre
  | 0, c :: cs' =>
    rw [show rewriteAux stepBlank 0 (c :: cs') = c :: cs' from rfl] at hpre
    obtain ⟨hc, hrest⟩ := List.cons_prefix_cons.1 hpre
    subst hc
    have hh := cons_prefix_head hrest
    obtain ⟨t, ht⟩ := List.head?_eq_some_iff.1 hh
    subst ht
    simp [List.takeWhile_cons, isWS, List.count_cons] at hcnt
  | m + 1, c :: cs' =>
    by_cases hc : c = '\n'
    · subst hc
      have hcnt' : (cs'.takeWhile isWS).count '\n' = 0 := by
        rw [List.takeWhile_cons_of_pos (by decide : isWS '\n' = true)] at hcnt
        simp [List.count_cons] at hcnt
        omega
      have hlt : ¬ 3 ≤ ((('\n' : Char) :: cs').takeWhile isWS).count '\n' := by
        rw [List.takeWhile_cons_of_pos (by decide : isWS '\n' = true)]
        simp [List.count_cons]
        omega
      rw [rewriteAux] at hpre
      rw [show stepBlank ('\n' :: cs') = none from by simp [stepBlank, hlt]] at hpre
      have h2 := (List.cons_prefix_cons.1 hpre).2
      have hh := cons_prefix_head h2
      have hne : cs'.head? ≠ some '\n' := by
        intro hcs
        obtain ⟨t, ht⟩ := List.head?_eq_some_iff.1 hcs
        subst ht
        rw [List.takeWhile_cons_of_pos (by decide : isWS '\n' = true)] at hcnt'
        simp [List.count_cons] at hcnt'
      exact rewriteAux_blank_head m cs' hne hh
    · rw [rewriteAux, stepBlank_none_of_ne hc] at hpre
      exact hc (List.cons_prefix_cons.1 hpre).1.symm

lemma stepBlank_some {l rep rest : List Char}
    (h : stepBlank l = some (rep, rest)) :
    rep = ['\n', '\n'] ∧ rest.length + 3 ≤ l.length ∧ rest.head? ≠ some '\n' := by
  match l with
  | [] => simp [stepBlank] at h
  | c :: cs =>
    by_cases hc : c = '\n'
    case neg =>
      rw [stepBlank_none_of_ne hc] at h
      exact absurd h (by simp)
    case pos =>
      subst hc
      by_cases h3 : 3 ≤ ((('\n' : Char) :: cs).takeWhile isWS).count '\n'
      case neg => simp [stepBlank, h3] at h
      case pos =>
        have hform :
            rep = ['\n', '\n'] ∧
              rest = (((('\n' : Char) :: cs).takeWhile isWS).reverse.takeWhile
                  (fun x => x ≠ '\n')).reverse ++ ('\n' :: cs).dropWhile isWS := by
          rw [show stepBlank ('\n' :: cs) =
              some (['\n', '\n'],
                ((('\n' :: cs).takeWhile isWS).reverse.takeWhile
                    (fun x => x ≠ '\n')).reverse ++ ('\n' :: cs).dropWhile isWS)
            from by simp [stepBlank, h3]] at h
          simpa using h.symm
      -- abbreviations for the whitespace run and its decomposition
        obtain ⟨hrep, hrest⟩ := hform
        refine ⟨hrep, ?_, ?_⟩
        · -- length: the run loses its at-least-three newlines
          have hsplit :
              ('\n' :: cs).takeWhile isWS ++ ('\n' :: cs).dropWhile isWS =
                '\n' :: cs := List.takeWhile_append_dropWhile isWS ('\n' :: cs)
          have hRrev :
              (((('\n' : Char) :: cs).takeWhile isWS).reverse.takeWhile fun x => x ≠ '\n') ++
                (((('\n' : Char) :: cs).takeWhile isWS).reverse.dropWhile fun x => x ≠ '\n') =
                (('\n' :: cs).takeWhile isWS).reverse :=
            List.takeWhile_append_dropWhile _ _
          have hTcount :
              ((((('\n' : Char) :: cs).takeWhile isWS).reverse.takeWhile
                  fun x => x ≠ '\n')).count '\n' = 0 := by
            rw [List.count_eq_zero]
            intro hmem
            have := List.mem_takeWhile_imp hmem
            simp at this
          have hcnt2 :
              ((('\n' : Char) :: cs).takeWhile isWS).count '\n' =
                ((((('\n' : Char) :: cs).takeWhile isWS).reverse.takeWhile
                    fun x => x ≠ '\n')).count '\n' +
                ((((('\n' : Char) :: cs).takeWhile isWS).reverse.dropWhile
                    fun x => x ≠ '\n')).count '\n' := by
            conv_lhs => rw [← List.count_reverse, ← hRrev]
            rw [List.count_append]
          have hdlen :=
            List.count_le_length '\n'
              (((('\n' : Char) :: cs).takeWhile isWS).reverse.dropWhile fun x => x ≠ '\n')
          have hlenR := congrArg List.length hRrev
          have hlenl := congrArg List.length hsplit
          simp only [List.length_append, List.length_reverse] at hlenR hlenl
          subst hrest
          simp only [List.length_append, List.length_reverse]
          omega
        · -- head: neither the kept run tail nor the post-run text starts with a newline
          subst hrest
          intro hh
          rcases hTr :
              (((('\n' : Char) :: cs).takeWhile isWS).reverse.takeWhile
                fun x => x ≠ '\n').reverse with _ | ⟨a, ta⟩
          · rw [hTr] at hh
            simp only [List.nil_append] at hh
            have := head?_dropWhile_not isWS ('\n' :: cs) '\n' hh
            simp [isWS] at this
          · rw [hTr] at hh
            simp only [List.cons_append, List.head?_cons, Option.some.injEq] at hh
            have hmem : a ∈ ((('\n' : Char) :: cs).takeWhile isWS).reverse.takeWhile
                (fun x => x ≠ '\n') := by
              rw [← List.mem_reverse, hTr]
              exact List.mem_cons_self a ta
            have := List.mem_takeWhile_imp hmem
            simp at this
            exact this hh

lemma rewriteAux_blank_no_triple :
    ∀ (n : Nat) (l : List Char), l.length ≤ n →
      ¬ nlTriple <:+: rewriteAux stepBlank n l := by
  intro n
  induction n with
  | zero =>
    intro l hl
    have : l = [] := List.length_eq_zero.1 (Nat.le_zero.1 hl)
    subst this
    simp [rewriteAux, nlTriple]
  | succ m ih =>
    intro l hl
    match l with
    | [] => simp [rewriteAux, nlTriple]
    | c :: cs =>
      rw [rewriteAux]
      rcases hstep : stepBlank (c :: cs) with _ | ⟨rep, rest⟩
      · -- no match here: the head character is kept
        intro htr
        rcases List.infix_cons_iff.1 htr with hpre | htr2
        · -- the triple would have to start at the kept character
          have hc := (List.cons_prefix_cons.1 hpre).1.symm
          subst hc
          have h2 := (List.cons_prefix_cons.1 hpre).2
          -- stepBlank returned none at a newline: the run has at most 2 newlines
          have hcnt : ((('\n' : Char) :: cs).takeWhile isWS).count '\n' ≤ 2 := by
            by_contra hgt
            simp [stepBlank, Nat.le_of_lt (Nat.lt_of_not_le hgt)] at hstep
            omega
          have hcnt' : (cs.takeWhile isWS).count '\n' ≤ 1 := by
            rw [List.takeWhile_cons_of_pos (by decide : isWS '\n' = true)] at hcnt
            simp [List.count_cons] at hcnt
            omega
          exact rewriteAux_blank_no_nl2 m cs hcnt' h2
        · exact ih cs (by simpa using Nat.le_of_succ_le_succ hl) htr2
      · -- a match: the replacement is exactly two newlines
        obtain ⟨hrep, hlen, hhead⟩ := stepBlank_some hstep
        subst hrep
        intro htr
        have hXhead := rewriteAux_blank_head m rest hhead
        rcases List.infix_cons_iff.1 htr with hpre | htr2
        · have h2 := (List.cons_prefix_cons.1 hpre).2
          have h3 := (List.cons_prefix_cons.1 h2).2
          exact hXhead (cons_prefix_head h3)
        rcases List.infix_cons_iff.1 htr2 with hpre | htr3
        · have h2 := (List.cons_prefix_cons.1 hpre).2
          exact hXhead (cons_prefix_head h2)
        · refine ih rest ?_ htr3
          simp only [List.length_cons] at hlen hl
          omega

lemma rewriteAux_horiz_head :
    ∀ (n : Nat) (l : List Char), l.head? ≠ some '\n' →
      (rewriteAux stepHoriz n l).head? ≠ some '\n' := by
  intro n l h
  match n, l with
  | n, [] => simp [rewriteAux]
  | 0, c :: cs => simpa [rewriteAux] using h
  | n + 1, c :: cs =>
    by_cases hh : isHoriz c
    · rw [rewriteAux,
        show stepHoriz (c :: cs) = some ([' '], cs.dropWhile isHoriz) from by
          simp [stepHoriz, hh]]
      simp
    · rw [rewriteAux, show stepHoriz (c :: cs) = none from by simp [stepHoriz, hh]]
      simpa using h

lemma rewriteAux_horiz_no_nl2 :
    ∀ (n : Nat) (cs : List Char), ¬ nlTriple <:+: ('\n' :: cs) →
      ¬ ('\n' :: '\n' :: []) <+: rewriteAux stepHoriz n cs := by
  intro n cs hnt hpre
  match n, cs with
  | n, [] =>
    rw [show rewriteAux stepHoriz n [] = [] from by cases n <;> rfl] at hpre
    simp at hpre
  | 0, c :: cs' =>
    rw [show rewriteAux stepHoriz 0 (c :: cs') = c :: cs' from rfl] at hpre
    obtain ⟨hc, h2⟩ := List.cons_prefix_cons.1 hpre
    subst hc
    obtain ⟨t, ht⟩ := List.head?_eq_some_iff.1 (cons_prefix_head h2)
    subst ht
    exact hnt (List.IsPrefix.isInfix ⟨t, rfl⟩)
  | m + 1, c :: cs' =>
    by_cases hh : isHoriz c
    · rw [rewriteAux,
        show stepHoriz (c :: cs') = some ([' '], cs'.dropWhile isHoriz) from by
          simp [stepHoriz, hh]] at hpre
      have := (List.cons_prefix_cons.1 hpre).1
      simp at this
    · rw [rewriteAux,
        show stepHoriz (c :: cs') = none from by simp [stepHoriz, hh]] at hpre
      obtain ⟨hc, h2⟩ := List.cons_prefix_cons.1 hpre
      subst hc
      have hne : cs'.head? ≠ some '\n' := by
        intro hcs
        obtain ⟨t, ht⟩ := List.head?_eq_some_iff.1 hcs
        subst ht
        exact hnt (List.IsPrefix.isInfix ⟨t, rfl⟩)
      exact rewriteAux_horiz_head m cs' hne (cons_prefix_head h2)

lemma rewriteAux_horiz_no_triple :
    ∀ (n : Nat) (l : List Char), ¬ nlTriple <:+: l →
      ¬ nlTriple <:+: rewriteAux stepHoriz n l := by
  intro n
  induction n with
  | zero =>
    intro l hl
    cases l <;> simpa [rewriteAux] using hl
  | succ m ih =>
    intro l hl
    match l with
    | [] => simp [rewriteAux, nlTriple]
    | c :: cs =>
      rw [rewriteAux]
      by_cases hh : isHoriz c
      · rw [show stepHoriz (c :: cs) = some ([' '], cs.dropWhile isHoriz) from by
          simp [stepHoriz, hh]]
        intro htr
        rcases List.infix_cons_iff.1 htr with hpre | htr2
        · have := (List.cons_prefix_cons.1 hpre).1
          simp at this
        · refine ih (cs.dropWhile isHoriz) ?_ htr2
          intro ht
          exact hl (ht.trans
            (((List.dropWhile_suffix isHoriz).trans (List.suffix_cons c cs)).isInfix))
      · rw [show stepHoriz (c :: cs) = none from by simp [stepHoriz, hh]]
        intro htr
        rcases List.infix_cons_iff.1 htr with hpre | htr2
        · have hc := (List.cons_prefix_cons.1 hpre).1.symm
          subst hc
          exact rewriteAux_horiz_no_nl2 m cs hl (List.cons_prefix_cons.1 hpre).2
        · exact ih cs (fun ht => hl (ht.trans (List.suffix_cons c cs).isInfix)) htr2

lemma trimL_within (l : List Char) : trimL l <:+: l := by
  unfold trimL
  have h1 : l.dropWhile isGoSpace <:+ l := List.dropWhile_suffix isGoSpace
  have h2 : (l.dropWhile isGoSpace).reverse.dropWhile isGoSpace <:+
      (l.dropWhile isGoSpace).reverse := List.dropWhile_suffix isGoSpace
  have h3 : ((l.dropWhile isGoSpace).reverse.dropWhile isGoSpace).reverse <+:
      l.dropWhile isGoSpace := by
    have := List.reverse_prefix.mpr h2
    simpa using this
  exact h3.isInfix.trans h1.isInfix

lemma data_mk (l : List Char) : (String.mk l).data = l := rfl

lemma no_triple_final (u : List Char) :
    ¬ nlTriple <:+: trimL (runPass stepHoriz (runPass stepBlank u)) := by
  intro htr
  have h1 : ¬ nlTriple <:+: runPass stepBlank u :=
    rewriteAux_blank_no_triple u.length u le_rfl
  have h2 := rewriteAux_horiz_no_triple (runPass stepBlank u).length
    (runPass stepBlank u) h1
  exact h2 (htr.trans (trimL_within _))

/-! ## Claims -/

/-- C1: the claim says `ADFToText` returns a string for every JSON input and
never raises.  The code violates this: a heading node without an `attrs`
object panics in the single-valued type assertion
`node["attrs"].(map[string]interface{})`, and a heading with a negative
`level` panics inside `strings.Repeat`.  This theorem evaluates the
embedding at both failing inputs. -/
theorem adf_render_panics_on_malformed_heading :
    ADFToText (jobj [("type", .str "doc"), ("content", jarr
        [jobj [("type", .str "heading")]])]) =
      .error "panic: interface conversion: attrs is not a JSON object" ∧
    ADFToText (jobj [("type", .str "doc"), ("content", jarr
        [jobj [("type", .str "heading"), ("attrs", jobj [("level", .num (-1))]),
               ("content", jarr [jobj [("type", .str "text"),
                                       ("text", .str "T")]])]])]) =
      .error "panic: strings.Repeat: negative Repeat count" :=
  ⟨by decide, by decide⟩

/-- C2: for every input string, `MarkdownToADF` succeeds, and its result is
an object whose `type` field is `"doc"` with a `content` key holding a
(possibly empty) sequence.  (Spec-modelled: the markdown renderer is the
external library, embedded from the spec as `mdToADF`.) -/
theorem markdown_total_doc_contract (s : String) :
    MarkdownToADF s = .ok (mdToADF s) ∧
    jlookup "type" (mdToADF s) = some (.str "doc") ∧
    ∃ l : JList, jlookup "content" (mdToADF s) = some (.arr l) :=
  ⟨rfl, rfl, ⟨jlist (mdBlocks (splitLines s.data).length (splitLines s.data)), rfl⟩⟩

/-- C3: rendering the output of `MarkdownToADF "# Title"` with `ADFToText`
yields a string containing `"# Title"` (the rendering is exactly
`"# Title"`).  (Spec-modelled markdown side, as in C2.) -/
theorem markdown_heading_round_trip :
    ∃ (j : JValue) (out : String), MarkdownToADF "# Title" = .ok j ∧
      ADFToText j = .ok out ∧ "# Title".data <:+: out.data :=
  ⟨mdToADF "# Title", "# Title", rfl, by decide, List.infix_refl _⟩

/-- C4 counterexample: a heading whose `attrs` object carries no `level`
renders with zero `#` markers (the code repeats `"#"` `int(0)` times), not
as a level-1 heading: the document renders to `"T"`, which does not contain
the claimed `"# T"`. -/
theorem heading_missing_level_cex :
    ADFToText (jobj [("type", .str "doc"), ("content", jarr
        [jobj [("type", .str "heading"), ("attrs", jobj []),
               ("content", jarr [jobj [("type", .str "text"),
                                       ("text", .str "T")]])]])]) = .ok "T" ∧
    ¬ "# T".data <:+: "T".data :=
  ⟨by decide, by decide⟩

/-- C4 (amended): for every heading node whose `attrs` object is present but
whose `level` is missing or non-numeric, `processNode` degrades gracefully
and renders the node with zero `#` markers: blank line, indent, the empty
marker string, a space, the rendered children, newline.  (A heading whose
`attrs` object itself is missing panics instead — see C1.) -/
theorem heading_missing_level_renders_no_marks
    (n indent : Nat) (fields afields : JFields)
    (htype : asString (lookupField "type" fields) = "heading")
    (hattrs : lookupField "attrs" fields = some (.obj afields))
    (hlevel : ∀ i : Int, lookupField "level" afields ≠ some (.num i)) :
    processNodeF (n + 1) fields indent =
      (renderChildrenF n (asArr (lookupField "content" fields)) indent).map
        (fun body => "\n" ++ indentStr indent ++ hashMarks 0 ++ " " ++ body ++ "\n") := by
  have hnum : asNum (lookupField "level" afields) = 0 := by
    cases h : lookupField "level" afields with
    | none => rfl
    | some v =>
      cases v with
      | num i => exact absurd h (hlevel i)
      | null => rfl
      | bool b => rfl
      | str s => rfl
      | arr l => rfl
      | obj f => rfl
  rw [processNodeF, renderChildrenF, adfRun]
  simp only [htype, hattrs, hnum]
  rw [if_neg (by decide), if_neg (by decide)]
  simp

/-- Witness for C4 (amended) at a concrete heading with empty `attrs`. -/
theorem heading_missing_level_renders_no_marks_witness :
    processNodeF 4 (jfields [("type", .str "heading"), ("attrs", jobj []),
        ("content", jarr [jobj [("type", .str "text"), ("text", .str "T")]])]) 0 =
      (renderChildrenF 3 (asArr (lookupField "content"
          (jfields [("type", .str "heading"), ("attrs", jobj []),
            ("content", jarr [jobj [("type", .str "text"), ("text", .str "T")]])]))) 0).map
        (fun body => "\n" ++ indentStr 0 ++ hashMarks 0 ++ " " ++ body ++ "\n") :=
  heading_missing_level_renders_no_marks 3 0 _ (jfields [])
    rfl rfl (fun i h => by simp [jfields, jobj, lookupField] at h)

/-- C5 counterexample: a text node whose mark `type` is the string
`"emphasis"` is not wrapped at all (the renderer matches `"em"`): the
document renders to plain `"x"`, which does not contain the claimed
`"*x*"`. -/
theorem emphasis_mark_not_wrapped_cex :
    ADFToText (jobj [("type", .str "doc"), ("content", jarr
        [jobj [("type", .str "paragraph"), ("content", jarr
          [jobj [("type", .str "text"), ("text", .str "x"),
                 ("marks", jarr [jobj [("type", .str "emphasis")]])]])]])]) =
      .ok "x" ∧
    ¬ "*x*".data <:+: "x".data :=
  ⟨by decide, by decide⟩

/-- C5 (amended): `ADFToText` applies a text node's marks as sequential
string-wrapping, matching the ADF type strings: `strong` → `**x**`,
`em` (the ADF spelling of emphasis) → `*x*`, `code` → backquotes,
`strike` → `~~x~~`; marks compose in sequence order, so `[strong, code]`
yields `**x**` wrapped in backquotes; an unrecognized mark type string
(such as the spelled-out `"emphasis"`) leaves the text unchanged. -/
theorem text_marks_wrap_sequentially (n indent : Nat) (t : String) :
    processNodeF (n + 1) (jfields [("type", .str "text"), ("text", .str t),
        ("marks", jarr [jobj [("type", .str "strong")]])]) indent =
      .ok ("**" ++ t ++ "**") ∧
    processNodeF (n + 1) (jfields [("type", .str "text"), ("text", .str t),
        ("marks", jarr [jobj [("type", .str "em")]])]) indent =
      .ok ("*" ++ t ++ "*") ∧
    processNodeF (n + 1) (jfields [("type", .str "text"), ("text", .str t),
        ("marks", jarr [jobj [("type", .str "code")]])]) indent =
      .ok ("`" ++ t ++ "`") ∧
    processNodeF (n + 1) (jfields [("type", .str "text"), ("text", .str t),
        ("marks", jarr [jobj [("type", .str "strike")]])]) indent =
      .ok ("~~" ++ t ++ "~~") ∧
    processNodeF (n + 1) (jfields [("type", .str "text"), ("text", .str t),
        ("marks", jarr [jobj [("type", .str "strong")],
                        jobj [("type", .str "code")]])]) indent =
      .ok ("`" ++ ("**" ++ t ++ "**") ++ "`") ∧
    processNodeF (n + 1) (jfields [("type", .str "text"), ("text", .str t),
        ("marks", jarr [jobj [("type", .str "emphasis")]])]) indent =
      .ok t := by
  refine ⟨?_, ?_, ?_, ?_, ?_, ?_⟩ <;>
    simp [processNodeF, adfRun, jfields, jarr, jlist, jobj,
      lookupField, asString, asArr, applyMarks]

/-- C6: for every input string, the output of `HTMLToText` never contains
three consecutive newline characters: the blank-line collapse pass leaves
every whitespace run with at most two newlines, and the horizontal-space
collapse and final trim cannot create new ones. -/
theorem html_render_no_triple_newline (s : String) :
    ¬ nlTriple <:+: (HTMLToText s).data := by
  by_cases hs : s = ""
  · subst hs
    rw [HTMLToText, if_pos rfl]
    decide
  · rw [HTMLToText, if_neg hs, data_mk, htmlPasses]
    exact no_triple_final _

/-- C7: each of the six HTML entities is decoded between `x` and `y`:
`&amp;` → `&`, `&lt;` → `<`, `&gt;` → `>`, `&quot;` → a double quote,
`&#39;` → an apostrophe, `&nbsp;` → a space. -/
theorem html_entity_decoding :
    HTMLToText "x&amp;y" = "x&y" ∧
    HTMLToText "x&lt;y" = "x<y" ∧
    HTMLToText "x&gt;y" = "x>y" ∧
    HTMLToText "x&quot;y" = String.mk ['x', '"', 'y'] ∧
    HTMLToText "x&#39;y" = String.mk ['x', '\x27', 'y'] ∧
    HTMLToText "x&nbsp;y" = "x y" :=
  ⟨by decide, by decide, by decide, by decide, by decide, by decide⟩

/-- C8: a 3-item `orderedList` renders each `listItem` with the 1-based
markers `1.`, `2.`, `3.` in order: the document below renders exactly to
`"1. A\n2. B\n3. C"`, and that output decomposes around the three markers
in order. -/
theorem ordered_list_markers_in_order :
    ADFToText (jobj [("type", .str "doc"), ("content", jarr
        [jobj [("type", .str "orderedList"), ("content", jarr
          [jobj [("type", .str "listItem"), ("content", jarr
            [jobj [("type", .str "paragraph"), ("content", jarr
              [jobj [("type", .str "text"), ("text", .str "A")]])]])],
           jobj [("type", .str "listItem"), ("content", jarr
            [jobj [("type", .str "paragraph"), ("content", jarr
              [jobj [("type", .str "text"), ("text", .str "B")]])]])],
           jobj [("type", .str "listItem"), ("content", jarr
            [jobj [("type", .str "paragraph"), ("content", jarr
              [jobj [("type", .str "text"), ("text", .str "C")]])]])]])]])]) =
      .ok "1. A\n2. B\n3. C" ∧
    ∃ x0 x1 x2 x3 : List Char,
      "1. A\n2. B\n3. C".data =
        x0 ++ "1.".data ++ x1 ++ "2.".data ++ x2 ++ "3.".data ++ x3 :=
  ⟨by decide, ⟨[], " A\n".data, " B\n".data, " C".data, by decide⟩⟩

/-- C9: `ADFToText` returns the empty string on `null` and on every JSON
value that is not an object. -/
theorem adf_render_null_or_non_object_empty :
    ADFToText .null = .ok "" ∧
    ∀ v : JValue, (∀ f : JFields, v ≠ .obj f) → ADFToText v = .ok "" := by
  refine ⟨rfl, ?_⟩
  intro v hv
  cases v with
  | null => rfl
  | bool b => rfl
  | num i => rfl
  | str s => rfl
  | arr l => rfl
  | obj f => exact absurd rfl (hv f)

/-- Witness for C9 at the non-object input `"not a map"`. -/
theorem adf_render_null_or_non_object_empty_witness :
    ADFToText (.str "not a map") = .ok "" :=
  adf_render_null_or_non_object_empty.2 (.str "not a map") (fun _ h => nomatch h)

/-- C10: the three converters are deterministic pure functions: equal inputs
give equal outputs (the embedding is a pure function of the input alone,
matching the Go code, whose only state is function-local). -/
theorem converters_deterministic (a b : JValue) (s t u v : String)
    (hab : a = b) (hst : s = t) (huv : u = v) :
    ADFToText a = ADFToText b ∧ HTMLToText s = HTMLToText t ∧
      MarkdownToADF u = MarkdownToADF v := by
  subst hab; subst hst; subst huv
  exact ⟨rfl, rfl, rfl⟩

/-- Witness for C10 at concrete inputs. -/
theorem converters_deterministic_witness :
    ADFToText .null = ADFToText .null ∧ HTMLToText "a" = HTMLToText "a" ∧
      MarkdownToADF "b" = MarkdownToADF "b" :=
  converters_deterministic .null .null "a" "a" "b" "b" rfl rfl rfl
